import Mathlib

/-!
Verification of the reactive core of `observable-sqlite`
(`src/database/SqliteDatabase.ts`, `src/database/parseTableNames.ts`,
`src/database/upsertRecordSql.ts` / `context.tsx`, `src/database/schema.ts`).

The development is a shallow embedding of the TypeScript source:

* the table-dependency extractor `parseTestTableNames` is embedded at the
  level of the AST produced by `pgsql-ast-parser` (the parser itself is an
  external library; `parse` returns a list of statement ASTs, and the
  repository's visitor collects every `tableRef` node's name into a `Set`);
* `hasIntersection` is the nested-loop membership test of
  `parseTableNames.ts`;
* the write path (`upsertRecordSql`, `writeRecordMap`, `emitTableChanges`)
  is embedded over an explicit database state, with `db.transaction`
  modelled by its SQLite semantics: apply the statements in order, and on
  any failure roll back to the pre-transaction state and propagate the
  error;
* the RxJS pipeline built by `observable` (`throttle` with
  `leading: true, trailing: true` whose duration is the in-flight query
  promise, followed by `switchMap` and `share`) is embedded as the explicit
  state machine it implements: `idle` (no throttle window), `running`
  (window open, no trailing value), `runningPending` (window open, trailing
  value stored), plus `errored` (an RxJS error notification terminates the
  subscriber chain).  Query execution against the synchronous SQLite build
  reads the database at the moment the execution starts, so each in-flight
  execution carries the database state it was started against.
-/

namespace ObservableSqlite

/-- The `RecordTable` union of `schema.ts`: `keyof TableToRecord`. -/
inductive RecordTable where
  | counter
  | thread
  | thread_message
  | message
deriving DecidableEq, Repr

/-- String name of a table, as used for `Object.keys(recordMap)` and for the
table names collected from SQL text. -/
def RecordTable.name : RecordTable → String
  | .counter => "counter"
  | .thread => "thread"
  | .thread_message => "thread_message"
  | .message => "message"

/-- A record value.  The only upsert rule registered in `context.tsx` is for
`counter`, whose rule reads `record.id` and `record.value`
(`CounterRecord = \x7b id: string; value: number \x7d`); records destined for
other tables never reach a rule, so one record shape suffices. -/
structure Rec where
  id : String
  value : Int
deriving DecidableEq, Repr

/-- One table's bucket of a `RecordMap`: record id → record, as an
insertion-ordered association list (a JS object). -/
abbrev Bucket : Type := List (String × Rec)

/-- The `RecordMap` of `schema.ts`: table → (record id → record), again as an
insertion-ordered association list (a JS object keyed by present tables). -/
abbrev RecordMap : Type := List (RecordTable × Bucket)

/-- The `DatabaseChange` event interface of `SqliteDatabase.ts`:
`\x7b tableNames: string[]; changes: RecordMap \x7d`. -/
structure DatabaseChange where
  tableNames : List String
  changes : RecordMap
deriving DecidableEq

/-! Section: Table-dependency extraction (`parseTableNames.ts`)

`pgsql-ast-parser`'s `parse` yields a list of statement ASTs; the
repository's visitor overrides only `tableRef`, adding each referenced
table's name to a `Set` (insertion-ordered, deduplicating).  We embed a
statement AST as a tree in which some nodes are table references. -/

/-- A SQL statement AST as seen by the visitor: `tableRef` leaves carry a
table name; every other node is an interior node whose children are visited
in order. -/
inductive Ast where
  | tableRef (tname : String)
  | node (children : List Ast)

mutual

/-- The visitor of `parseTestTableNames`: walk the AST, adding each
`tableRef` name to the insertion-ordered set `seen` (a JS `Set<string>`). -/
def visitTables : Ast → List String → List String
  | .tableRef n, seen => if n ∈ seen then seen else seen ++ [n]
  | .node cs, seen => visitTablesList cs seen

/-- Visit a list of child nodes in order. -/
def visitTablesList : List Ast → List String → List String
  | [], seen => seen
  | a :: as, seen => visitTablesList as (visitTables a seen)

end

mutual

/-- Whether an AST contains any `tableRef` node at all. -/
def hasTableRef : Ast → Bool
  | .tableRef _ => true
  | .node cs => hasTableRefList cs

/-- Whether any AST in a list contains a `tableRef` node. -/
def hasTableRefList : List Ast → Bool
  | [] => false
  | a :: as => hasTableRef a || hasTableRefList as

end

/-- The error taxonomy the spec assigns to query registration:
`MultipleStatements` is the source's
`Must receive exactly one SQL statement` throw, `NoTablesFound` is the
source's `Could not calculate selected table names` throw. -/
inductive AnalysisError where
  | multipleStatements
  | noTablesFound
deriving DecidableEq, Repr

/-- Function `parseTestTableNames` of `parseTableNames.ts`, embedded at the AST
level: throw unless `parse` produced exactly one statement, then return
`Array.from` of the set of table names the visitor collected. -/
def parseTestTableNames : List Ast → Except AnalysisError (List String)
  | [s] => .ok (visitTables s [])
  | _ => .error .multipleStatements

/-- The synchronous registration step shared by `observeQuery` and
`liveQuery` (`SqliteDatabase.ts`): run `parseTestTableNames` and throw
`Could not calculate selected table names` when the resulting dependency
set is empty.  Both throws happen before the `Observable`/handle is
constructed, hence before any bus subscription exists. -/
def observeQueryDeps (statements : List Ast) : Except AnalysisError (List String) :=
  match parseTestTableNames statements with
  | .error e => .error e
  | .ok ts => if ts.length = 0 then .error .noTablesFound else .ok ts

/-- Function `hasIntersection` of `parseTableNames.ts`: a nested loop over `first`
(outer) and `second` (inner), returning `true` at the first pair equal
under `Object.is` (string equality here). -/
def hasIntersection : List String → List String → Bool
  | [], _ => false
  | a :: rest, second => if second.contains a then true else hasIntersection rest second

/-! Section: The coalescing pipeline (`observable` in `SqliteDatabase.ts`)

`observable` builds
`source.pipe(throttle(() => from(query), \x7b leading: true, trailing: true \x7d), switchMap(() => \x7b query = runQuery(); return query \x7d), share(\x7b resetOnRefCountZero: true \x7d))`
where `source` emits once on subscribe and once per staleness callback.

RxJS `throttle` with `leading: true` forwards an emission arriving with no
open throttle window downstream *before* calling the duration factory, so
`switchMap` has already started the execution and assigned `query` when the
window opens: the throttle window is exactly the in-flight execution.  An
emission arriving while the window is open is stored as the (single,
latest) trailing value.  When the duration observable fires — the query
promise resolves — `switchMap` has delivered the result first (its promise
handler was registered first), then the window closes; with
`trailing: true` a stored value is re-sent downstream, starting one new
execution and a new window.  The machine below is that operator chain:

* `idle`: no throttle window, no in-flight execution;
* `running`: window open (one execution in flight), no trailing value;
* `runningPending`: window open, trailing value stored (any number of
  further staleness signals leave it stored — one flag, not a queue);
* `errored`: a rejected query promise errored the subscriber chain
  (there is no `catchError` in the pipe), which finalizes the shared
  subscription; nothing runs afterwards.

The database is external to the pipeline; the synchronous SQLite build
evaluates `runQuery` at the moment the execution starts, so `signal` and
`resolve` events carry the database state current at that moment, and an
in-flight execution records the state it was started against. -/

/-- Pipeline phases of the throttle/switchMap chain. -/
inductive Phase where
  | idle
  | running
  | runningPending
  | errored
deriving DecidableEq, Repr

/-- What the shared stream delivers to every attached observer: a query
result — identified by the database state it reflects, i.e. the state the
execution was started against — or an RxJS error notification. -/
inductive Emit (D : Type) where
  | result (d : D)
  | failure
deriving DecidableEq, Repr

/-- State of one pipeline instance.  `inflight` lists the live `switchMap`
inner subscriptions as `(start index, database state read)` pairs — kept as
a list so that single-flight is a proved invariant, not a typing artifact.
`starts` counts executions started; `emitted` logs deliveries to the
attached observers in order, tagged with the execution's start index. -/
structure PipeState (D : Type) where
  phase : Phase
  inflight : List (Nat × D)
  starts : Nat
  emitted : List (Nat × Emit D)
deriving DecidableEq, Repr

/-- Events a pipeline instance reacts to.  `signal d` is the staleness
callback firing while the database is in state `d`; `resolve d` is the
in-flight query promise resolving while the database is in state `d`;
`reject` is the in-flight promise rejecting (engine error). -/
inductive PEvent (D : Type) where
  | signal (d : D)
  | resolve (d : D)
  | reject
deriving DecidableEq, Repr

/-- One transition of the pipeline machine. -/
def pipeStep {D : Type} (s : PipeState D) : PEvent D → PipeState D
  | .signal d =>
    match s.phase with
    | .idle =>
      { s with phase := .running, inflight := [(s.starts, d)], starts := s.starts + 1 }
    | .running => { s with phase := .runningPending }
    | .runningPending => s
    | .errored => s
  | .resolve d =>
    match s.phase, s.inflight with
    | .running, (k, d0) :: _ =>
      { s with phase := .idle, inflight := [],
               emitted := s.emitted ++ [(k, .result d0)] }
    | .runningPending, (k, d0) :: _ =>
      { s with phase := .running, inflight := [(s.starts, d)],
               starts := s.starts + 1,
               emitted := s.emitted ++ [(k, .result d0)] }
    | _, _ => s
  | .reject =>
    match s.phase, s.inflight with
    | .running, (k, _) :: _ =>
      { s with phase := .errored, inflight := [],
               emitted := s.emitted ++ [(k, .failure)] }
    | .runningPending, (k, _) :: _ =>
      { s with phase := .errored, inflight := [],
               emitted := s.emitted ++ [(k, .failure)] }
    | _, _ => s

/-- State right after the first observer attaches while the database is in
state `d`: the subscribe body emits an initial `next` which passes the
(leading) throttle and starts the first execution. -/
def pipeAttach {D : Type} (d : D) : PipeState D :=
  { phase := .running, inflight := [(0, d)], starts := 1, emitted := [] }

/-- Run the pipeline machine over a list of events. -/
def pipeRun {D : Type} (s : PipeState D) (evs : List (PEvent D)) : PipeState D :=
  evs.foldl pipeStep s

/-! Section: Upsert rules and the write path
(`upsertRecordSql` in `context.tsx` / `upsertRecordSql.ts`,
`writeRecordMap`, `emitTableChanges`, `subscribeToRowChanges` in
`SqliteDatabase.ts`) -/

/-- Failures the write path can raise.  `unknownTable` is the failure of
`upsertRecordMap[table](record)` when no rule is registered for `table`
(in JS, indexing the rule object off-schema yields `undefined` and the
call throws) — the spec's `UnknownTable`. -/
inductive DbError where
  | unknownTable (t : RecordTable)
deriving DecidableEq, Repr

/-- The statement produced by the one registered rule:
`INSERT INTO counter (id, value) VALUES (r.id, r.value) ON CONFLICT(id) DO UPDATE SET value = r.value`. -/
inductive Stmt where
  | upsertCounter (id : String) (value : Int)
deriving DecidableEq, Repr

/-- Whether `table in upsertRecordMap`: the rule object of `context.tsx`
registers a rule for `counter` only. -/
def hasUpsertRule : RecordTable → Bool
  | .counter => true
  | _ => false

/-- Function `upsertRecordSql(table, record)`: look the table up in the rule object
and apply the rule to the record.  The rule reads `record.id` and
`record.value`; an unregistered table throws. -/
def upsertRecordSql : RecordTable → Rec → Except DbError Stmt
  | .counter, r => .ok (.upsertCounter r.id r.value)
  | t, _ => .error (.unknownTable t)

/-- Rows of the `counter` table: id → value, in row order. -/
abbrev Rows : Type := List (String × Int)

/-- SQLite semantics of the generated statement on the `counter` rows:
`ON CONFLICT(id) DO UPDATE SET value = ...` overwrites the `value` column
of the existing row in place; otherwise the new row is inserted. -/
def upsertRow : Rows → String → Int → Rows
  | [], i, v => [(i, v)]
  | (j, w) :: rest, i, v =>
    if j = i then (j, v) :: rest else (j, w) :: upsertRow rest i v

/-- Database state.  The schema also creates `thread` and `message`
tables, but the only registered upsert rule targets `counter`, so
`writeRecordMap` can only ever mutate `counter` rows. -/
structure Db where
  counter : Rows
deriving DecidableEq, Repr

/-- Execute one generated statement against the engine. -/
def execStmt (db : Db) : Stmt → Db
  | .upsertCounter i v => { counter := upsertRow db.counter i v }

/-- The inner loop of `writeRecordMap`'s transaction body over one table's
bucket: `for (const row of Object.values(rows)) db.exec(upsertRecordSql(table, row))`. -/
def applyBucket (t : RecordTable) : Bucket → Db → Except DbError Db
  | [], db => .ok db
  | (_, r) :: rest, db =>
    match upsertRecordSql t r with
    | .error e => .error e
    | .ok s => applyBucket t rest (execStmt db s)

/-- The transaction body of `writeRecordMap`:
`for (const [table, rows] of Object.entries(recordMap)) ...`. -/
def applyRecordMap : RecordMap → Db → Except DbError Db
  | [], db => .ok db
  | (t, b) :: rest, db =>
    match applyBucket t b db with
    | .error e => .error e
    | .ok db' => applyRecordMap rest db'

/-- Outcome of one `writeRecordMap` call: the database state after the
call, the `DatabaseChange` events handed to `emitTableChanges` (delivered
to every bus subscriber), and the error surfaced to the caller, if any. -/
structure WriteResult where
  db : Db
  published : List DatabaseChange
  error : Option DbError
deriving DecidableEq

/-- Method `writeRecordMap`: run the upserts inside `db.transaction` — on any
failure SQLite rolls the transaction back, the state is unchanged, the
error propagates, and `emitTableChanges` (which follows the transaction)
is never reached.  On success, emit exactly one event
`\x7b tableNames: Object.keys(recordMap), changes: recordMap \x7d`. -/
def writeRecordMap (db : Db) (m : RecordMap) : WriteResult :=
  match applyRecordMap m db with
  | .error e => { db := db, published := [], error := some e }
  | .ok db' =>
    { db := db'
      published := [{ tableNames := m.map (fun p => p.1.name), changes := m }]
      error := none }

/-! Section: The change-notification bus and per-pipeline teardown

`changeSubscriptions` is a JS `Set` of callbacks; `subscribeToRowChanges`
adds one and returns a closure deleting it; `emitTableChanges` invokes
every member.  `share(\x7b resetOnRefCountZero: true \x7d)` unsubscribes the
source observable when the observer count reaches zero, running the
teardown returned from the `Observable` constructor, which calls that
closure.  Callbacks are identified by `Nat` ids (each `subscribeToRowChanges`
call passes a fresh closure, so ids are distinct and the `Set` holds no
duplicates). -/

/-- The call `changeSubscriptions.add(callback)` (`Set` semantics: no duplicate). -/
def busSubscribe (subs : List Nat) (cb : Nat) : List Nat :=
  if cb ∈ subs then subs else subs ++ [cb]

/-- The unsubscribe closure: `changeSubscriptions.delete(callback)`. -/
def busUnsubscribe (subs : List Nat) (cb : Nat) : List Nat :=
  subs.erase cb

/-- One shared pipeline together with the client's bus: the bus subscriber
set, this pipeline's callback id, the RxJS `share` reference count, and the
pipeline machine (`some` while the shared subscription is live, `none`
after teardown). -/
structure SharedPipeline (D : Type) where
  subs : List Nat
  cb : Nat
  observers : Nat
  pipe : Option (PipeState D)
deriving DecidableEq, Repr

/-- One observer detaches.  With `resetOnRefCountZero: true`, the
transition from one observer to zero unsubscribes the source: the teardown
deletes the pipeline's callback from the bus and the shared stream is
discarded. -/
def detachObserver {D : Type} (p : SharedPipeline D) : SharedPipeline D :=
  if p.observers = 1 then
    { p with observers := 0, subs := busUnsubscribe p.subs p.cb, pipe := none }
  else
    { p with observers := p.observers - 1 }

/-- Method `emitTableChanges` as seen by one pipeline: every callback in the
subscriber set is invoked; the pipeline's own callback (if still
subscribed) signals its state machine.  The event is taken to pass the
pipeline's dependency filter — the worst case for teardown claims. -/
def publishToPipeline {D : Type} (p : SharedPipeline D) (d : D) : SharedPipeline D :=
  if p.cb ∈ p.subs then
    { p with pipe := p.pipe.map (fun st => pipeStep st (.signal d)) }
  else p

/-! Section: Dependency filtering

The staleness callbacks registered on the bus by `observeQuery`/`liveQuery`
and by `observeRecord`/`liveRecord`.  Each receives the published
`DatabaseChange` and either returns without doing anything or fires
`onChange`, which (in the observable variants) is `subscriber.next(null)` —
a `signal` event of the pipeline machine. -/

/-- The bus callback of `observeQuery`/`liveQuery`:
`if (!hasIntersection(affectedTableNames, tableNames)) return; onChange()`,
applied to the pipeline machine with the database in state `d`. -/
def queryOnRowChange {D : Type} (deps : List String) (ev : DatabaseChange)
    (d : D) (p : PipeState D) : PipeState D :=
  if hasIntersection deps ev.tableNames then pipeStep p (.signal d) else p

/-- The test `id in changes[table]` for a bucket: JS `in` on the object. -/
def bucketHasId (b : Bucket) (id : String) : Bool :=
  b.any (fun q => q.1 = id)

/-- The test `table in changes`: look the table's bucket up in the record map. -/
def lookupTable (m : RecordMap) (t : RecordTable) : Option Bucket :=
  match m.find? (fun p => p.1 = t) with
  | some p => some p.2
  | none => none

/-- The bus callback of `observeRecord`/`liveRecord`:
`if (!(table in changes) || !(id in changes[table])) return; onChange()`,
applied to the pipeline machine with the database in state `d`. -/
def recordOnRowChange {D : Type} (t : RecordTable) (id : String)
    (ev : DatabaseChange) (d : D) (p : PipeState D) : PipeState D :=
  match lookupTable ev.changes t with
  | none => p
  | some b => if bucketHasId b id then pipeStep p (.signal d) else p

/-! Section: Derived notions used by the verification -/

/-- The inductive invariant of the pipeline machine: deliveries are tagged
`0, 1, 2, …` in order; while the throttle window is open exactly the next
execution is in flight; while it is closed nothing is. -/
def pipeInv {D : Type} (s : PipeState D) : Prop :=
  s.emitted.map Prod.fst = List.range s.emitted.length ∧
  ((s.phase = .running ∨ s.phase = .runningPending) →
    (∃ d, s.inflight = [(s.emitted.length, d)]) ∧ s.starts = s.emitted.length + 1) ∧
  ((s.phase = .idle ∨ s.phase = .errored) →
    s.inflight = [] ∧ s.starts = s.emitted.length)

/-- The ids of the rows, in row order (the `counter` primary keys). -/
def keysOf (rows : Rows) : List String := rows.map Prod.fst

/-- Reading one row by primary key. -/
def lookupRow : Rows → String → Option Int
  | [], _ => none
  | (j, w) :: rest, i => if j = i then some w else lookupRow rest i

/-- The (id, value) pairs the batch's statements carry, in execution
order — note `upsertRecordSql` reads `record.id`, not the bucket key. -/
def bucketOps (b : Bucket) : List (String × Int) :=
  b.map (fun q => (q.2.id, q.2.value))

/-- All upsert operations of a record map, in `Object.entries` order. -/
def mapOps (m : RecordMap) : List (String × Int) :=
  (m.map (fun p => bucketOps p.2)).flatten

/-- Folding a list of upsert operations over the rows. -/
def applyOps (rows : Rows) (ops : List (String × Int)) : Rows :=
  ops.foldl (fun rs op => upsertRow rs op.1 op.2) rows

/-- The value the last operation on id `j` writes, if any. -/
def lastVal : List (String × Int) → String → Option Int
  | [], _ => none
  | op :: rest, j =>
    match lastVal rest j with
    | some v => some v
    | none => if op.1 = j then some op.2 else none

/-- The row ids after applying the operations to rows with ids `ks`. -/
def idsAfter (ks : List String) : List (String × Int) → List String
  | [] => ks
  | op :: rest => idsAfter (if op.1 ∈ ks then ks else ks ++ [op.1]) rest

/-! Section: Helper lemmas -/

mutual

theorem visitTables_of_no_tableRef : ∀ (a : Ast) (seen : List String),
    hasTableRef a = false → visitTables a seen = seen
  | .tableRef _, _, h => by simp [hasTableRef] at h
  | .node cs, seen, h => by
    rw [visitTables]
    exact visitTablesList_of_no_tableRef cs seen (by simpa [hasTableRef] using h)

theorem visitTablesList_of_no_tableRef : ∀ (as : List Ast) (seen : List String),
    hasTableRefList as = false → visitTablesList as seen = seen
  | [], _, _ => by rw [visitTablesList]
  | a :: as, seen, h => by
    rw [visitTablesList]
    have h2 : hasTableRef a = false ∧ hasTableRefList as = false := by
      simpa [hasTableRefList, Bool.or_eq_false_iff] using h
    rw [visitTables_of_no_tableRef a seen h2.1]
    exact visitTablesList_of_no_tableRef as seen h2.2

end

theorem hasIntersection_eq_true_iff (f s : List String) :
    hasIntersection f s = true ↔ ∃ a ∈ f, a ∈ s := by
  induction f with
  | nil => simp [hasIntersection]
  | cons a rest ih =>
    rw [hasIntersection]
    by_cases h : s.contains a
    · simp only [if_pos h, true_iff]
      exact ⟨a, List.mem_cons_self a rest, by simpa using h⟩
    · simp only [if_neg h, ih]
      constructor
      · rintro ⟨x, hx, hxs⟩
        exact ⟨x, List.mem_cons_of_mem a hx, hxs⟩
      · rintro ⟨x, hx, hxs⟩
        rcases List.mem_cons.mp hx with rfl | hx'
        · exact absurd (by simpa using hxs) h
        · exact ⟨x, hx', hxs⟩

/-! Section: Claim theorems -/

/-- C4: the synchronous registration step of `observeQuery` fails with
`AnalysisError(MultipleStatements)` for every input whose parse is not
exactly one statement, and with `AnalysisError(NoTablesFound)` for every
single-statement input containing no table reference; in both cases the
`Except` is an error, so no observable — and hence no subscription — is
ever created. -/
theorem observe_query_analysis_errors (stmts : List Ast) :
    (stmts.length ≠ 1 → observeQueryDeps stmts = .error .multipleStatements) ∧
    (∀ s, stmts = [s] → hasTableRef s = false →
      observeQueryDeps stmts = .error .noTablesFound) := by
  constructor
  · intro h
    match stmts, h with
    | [], _ => rfl
    | _ :: _ :: _, _ => rfl
    | [_], h => exact absurd rfl h
  · rintro s rfl h
    simp [observeQueryDeps, parseTestTableNames, visitTables_of_no_tableRef s [] h]

/-- C4 witness: two statements fail with `MultipleStatements`; a single
statement with no table reference fails with `NoTablesFound`. -/
theorem observe_query_analysis_errors_witness :
    observeQueryDeps [Ast.node [], Ast.node []] = .error .multipleStatements ∧
    observeQueryDeps [Ast.node []] = .error .noTablesFound := by
  refine ⟨(observe_query_analysis_errors _).1 (by decide),
    (observe_query_analysis_errors _).2 (Ast.node []) rfl ?_⟩
  rw [hasTableRef, hasTableRefList]

/-- C5: a published `ChangeEvent` whose `tableNames` does not intersect a
live query's dependency set leaves the pipeline untouched: the
`hasIntersection` guard in the bus callback returns early, `onChange` is
never invoked, and no execution starts. -/
theorem query_dependency_isolation {D : Type} (deps : List String)
    (ev : DatabaseChange) (d : D) (p : PipeState D)
    (hdisj : ∀ t ∈ deps, t ∉ ev.tableNames) :
    queryOnRowChange deps ev d p = p := by
  rw [queryOnRowChange, if_neg]
  intro h
  obtain ⟨a, ha, has⟩ := (hasIntersection_eq_true_iff deps ev.tableNames).mp h
  exact hdisj a ha has

/-- C5 witness: a write event touching only `counter` never signals a
pipeline whose dependency set is `thread`. -/
theorem query_dependency_isolation_witness :
    queryOnRowChange ["thread"] { tableNames := ["counter"], changes := [] }
      (0 : Nat) (pipeAttach 0) = pipeAttach 0 := by
  refine query_dependency_isolation _ _ _ _ ?_
  intro t ht
  simp only [List.mem_singleton] at ht
  subst ht
  decide

theorem pipeRun_append {D : Type} (s : PipeState D) (xs ys : List (PEvent D)) :
    pipeRun s (xs ++ ys) = pipeRun (pipeRun s xs) ys :=
  List.foldl_append _ _ _ _

theorem pipeStep_signal_running {D : Type} (s : PipeState D) (d : D)
    (h : s.phase = .running) :
    pipeStep s (.signal d) = { s with phase := .runningPending } := by
  simp [pipeStep, h]

theorem pipeRun_signals_pending {D : Type} (s : PipeState D) (ws : List D)
    (h : s.phase = .runningPending) :
    pipeRun s (ws.map PEvent.signal) = s := by
  induction ws with
  | nil => rfl
  | cons w ws ih =>
    have hstep : pipeStep s (.signal w) = s := by simp [pipeStep, h]
    simpa [pipeRun, hstep] using ih

/-- C1: if one or more staleness signals arrive while an execution is in
flight, the signals themselves start nothing; exactly one further
execution starts when the in-flight one completes, and that rerun reads
the database state current at its own start (`dnow`), not any of the
states `ws` current when the signals fired; when the rerun completes the
pipeline emits the result read at `dnow` and returns to `idle` with no
further execution started. -/
theorem observable_coalesces_signals {D : Type} (s : PipeState D) (k : Nat)
    (d0 : D) (ws : List D) (dnow dfin : D)
    (hph : s.phase = .running) (hin : s.inflight = [(k, d0)]) (hw : ws ≠ []) :
    (pipeRun s (ws.map PEvent.signal)).starts = s.starts ∧
    pipeRun s (ws.map PEvent.signal ++ [PEvent.resolve dnow]) =
      { phase := .running, inflight := [(s.starts, dnow)],
        starts := s.starts + 1, emitted := s.emitted ++ [(k, .result d0)] } ∧
    pipeRun s (ws.map PEvent.signal ++ [PEvent.resolve dnow, PEvent.resolve dfin]) =
      { phase := .idle, inflight := [], starts := s.starts + 1,
        emitted := s.emitted ++ [(k, .result d0), (s.starts, .result dnow)] } := by
  obtain ⟨w, ws', rfl⟩ : ∃ w ws', ws = w :: ws' := by
    cases ws with
    | nil => exact absurd rfl hw
    | cons w ws' => exact ⟨w, ws', rfl⟩
  have hsig : pipeRun s ((w :: ws').map PEvent.signal) =
      { s with phase := .runningPending } := by
    have h1 : pipeStep s (.signal w) = { s with phase := .runningPending } :=
      pipeStep_signal_running s w hph
    show pipeRun (pipeStep s (.signal w)) (ws'.map PEvent.signal) = _
    rw [h1]
    exact pipeRun_signals_pending _ ws' rfl
  have hres : pipeRun s ((w :: ws').map PEvent.signal ++ [PEvent.resolve dnow]) =
      { phase := .running, inflight := [(s.starts, dnow)],
        starts := s.starts + 1, emitted := s.emitted ++ [(k, .result d0)] } := by
    rw [pipeRun_append, hsig]
    show pipeStep { s with phase := .runningPending } (.resolve dnow) = _
    simp [pipeStep, hin]
  refine ⟨by rw [hsig], hres, ?_⟩
  have hsplit : (w :: ws').map PEvent.signal ++ [PEvent.resolve dnow, PEvent.resolve dfin] =
      ((w :: ws').map PEvent.signal ++ [PEvent.resolve dnow]) ++ [PEvent.resolve dfin] := by
    simp
  rw [hsplit, pipeRun_append, hres]
  simp [pipeRun, pipeStep]

/-- C1 witness: a running pipeline receives two staleness signals (at
database states 1 and 2) during its first execution; exactly one rerun
starts after completion, reading the state current at its own start
(3, not 1 or 2), and emits the result read at 3. -/
theorem observable_coalesces_signals_witness :
    (pipeRun (pipeAttach (0 : Nat)) ([1, 2].map PEvent.signal)).starts = 1 ∧
    pipeRun (pipeAttach (0 : Nat)) ([1, 2].map PEvent.signal ++ [PEvent.resolve 3]) =
      { phase := .running, inflight := [(1, 3)], starts := 2,
        emitted := [(0, .result 0)] } ∧
    pipeRun (pipeAttach (0 : Nat))
        ([1, 2].map PEvent.signal ++ [PEvent.resolve 3, PEvent.resolve 7]) =
      { phase := .idle, inflight := [], starts := 2,
        emitted := [(0, .result 0), (1, .result 3)] } :=
  observable_coalesces_signals (pipeAttach 0) 0 0 [1, 2] 3 7 rfl rfl (by decide)

theorem pipeInv_attach {D : Type} (d : D) : pipeInv (pipeAttach d) := by
  refine ⟨rfl, fun _ => ⟨⟨d, rfl⟩, rfl⟩, fun h => ?_⟩
  rcases h with h | h <;> exact absurd h (by simp [pipeAttach])

theorem pipeInv_step {D : Type} {s : PipeState D} (h : pipeInv s) (e : PEvent D) :
    pipeInv (pipeStep s e) := by
  obtain ⟨hmap, hrun, hidle⟩ := h
  have hrange : ∀ x : Emit D,
      (s.emitted ++ [(s.emitted.length, x)]).map Prod.fst =
        List.range (s.emitted ++ [(s.emitted.length, x)]).length := by
    intro x
    simp [hmap, List.range_succ]
  cases e with
  | signal d =>
    cases hph : s.phase with
    | idle =>
      obtain ⟨hin, hst⟩ := hidle (Or.inl hph)
      refine ⟨by simpa [pipeStep, hph] using hmap,
        fun _ => ⟨⟨d, by simp [pipeStep, hph, hst]⟩,
        by simp [pipeStep, hph, hst]⟩, fun hc => ?_⟩
      simp only [pipeStep, hph] at hc
      rcases hc with hc | hc <;> exact absurd hc (by simp)
    | running =>
      obtain ⟨hin, hst⟩ := hrun (Or.inl hph)
      refine ⟨by simpa [pipeStep, hph] using hmap, fun _ => ?_, fun hc => ?_⟩
      · exact ⟨by simpa [pipeStep, hph] using hin, by simpa [pipeStep, hph] using hst⟩
      · simp only [pipeStep, hph] at hc
        rcases hc with hc | hc <;> exact absurd hc (by simp)
    | runningPending => simpa [pipeStep, hph] using ⟨hmap, hrun, hidle⟩
    | errored => simpa [pipeStep, hph] using ⟨hmap, hrun, hidle⟩
  | resolve d =>
    cases hph : s.phase with
    | idle =>
      obtain ⟨hin, _⟩ := hidle (Or.inl hph)
      simpa [pipeStep, hph, hin] using ⟨hmap, hrun, hidle⟩
    | errored =>
      obtain ⟨hin, _⟩ := hidle (Or.inr hph)
      simpa [pipeStep, hph, hin] using ⟨hmap, hrun, hidle⟩
    | running =>
      obtain ⟨⟨d0, hin⟩, hst⟩ := hrun (Or.inl hph)
      refine ⟨by simpa [pipeStep, hph, hin] using hrange (.result d0),
        fun hc => ?_, fun _ => ?_⟩
      · simp only [pipeStep, hph, hin] at hc
        rcases hc with hc | hc <;> exact absurd hc (by simp)
      · simp [pipeStep, hph, hin, hst]
    | runningPending =>
      obtain ⟨⟨d0, hin⟩, hst⟩ := hrun (Or.inr hph)
      refine ⟨by simpa [pipeStep, hph, hin] using hrange (.result d0),
        fun _ => ⟨⟨d, by simp [pipeStep, hph, hin, hst]⟩,
          by simp [pipeStep, hph, hin, hst]⟩, fun hc => ?_⟩
      simp only [pipeStep, hph, hin] at hc
      rcases hc with hc | hc <;> exact absurd hc (by simp)
  | reject =>
    cases hph : s.phase with
    | idle =>
      obtain ⟨hin, _⟩ := hidle (Or.inl hph)
      simpa [pipeStep, hph, hin] using ⟨hmap, hrun, hidle⟩
    | errored =>
      obtain ⟨hin, _⟩ := hidle (Or.inr hph)
      simpa [pipeStep, hph, hin] using ⟨hmap, hrun, hidle⟩
    | running =>
      obtain ⟨⟨d0, hin⟩, hst⟩ := hrun (Or.inl hph)
      refine ⟨by simpa [pipeStep, hph, hin] using hrange .failure,
        fun hc => ?_, fun _ => ?_⟩
      · simp only [pipeStep, hph, hin] at hc
        rcases hc with hc | hc <;> exact absurd hc (by simp)
      · simp [pipeStep, hph, hin, hst]
    | runningPending =>
      obtain ⟨⟨d0, hin⟩, hst⟩ := hrun (Or.inr hph)
      refine ⟨by simpa [pipeStep, hph, hin] using hrange .failure,
        fun hc => ?_, fun _ => ?_⟩
      · simp only [pipeStep, hph, hin] at hc
        rcases hc with hc | hc <;> exact absurd hc (by simp)
      · simp [pipeStep, hph, hin, hst]

theorem pipeInv_run {D : Type} {s : PipeState D} (h : pipeInv s)
    (evs : List (PEvent D)) : pipeInv (pipeRun s evs) := by
  induction evs generalizing s with
  | nil => exact h
  | cons e evs ih => exact ih (pipeInv_step h e)

/-- C2: over every event trace from the first attach, at most one
execution is in flight at any time, and the deliveries to observers are
tagged `0, 1, 2, …` in order — completion (= delivery) order equals start
order, since executions never overlap. -/
theorem observable_single_flight_ordered {D : Type} (d : D)
    (evs : List (PEvent D)) :
    (pipeRun (pipeAttach d) evs).inflight.length ≤ 1 ∧
    (pipeRun (pipeAttach d) evs).emitted.map Prod.fst =
      List.range (pipeRun (pipeAttach d) evs).emitted.length := by
  obtain ⟨hmap, hrun, hidle⟩ := pipeInv_run (pipeInv_attach d) evs
  refine ⟨?_, hmap⟩
  cases hph : (pipeRun (pipeAttach d) evs).phase with
  | idle => simp [(hidle (Or.inl hph)).1]
  | errored => simp [(hidle (Or.inr hph)).1]
  | running =>
    obtain ⟨⟨_, hin⟩, _⟩ := hrun (Or.inl hph)
    simp [hin]
  | runningPending =>
    obtain ⟨⟨_, hin⟩, _⟩ := hrun (Or.inr hph)
    simp [hin]

theorem pipeRun_errored {D : Type} (s : PipeState D) (evs : List (PEvent D))
    (hph : s.phase = .errored) (hin : s.inflight = []) :
    pipeRun s evs = s := by
  induction evs with
  | nil => rfl
  | cons e evs ih =>
    have hstep : pipeStep s e = s := by
      cases e with
      | signal d => simp [pipeStep, hph]
      | resolve d => simp [pipeStep, hph, hin]
      | reject => simp [pipeStep, hph, hin]
    simpa [pipeRun, hstep] using ih

/-- C7 counterexample: a pipeline whose first execution has a pending
rerun (one staleness signal arrived in flight) fails.  The claim says the
pending rerun still fires and the pipeline continues to serve staleness
signals — so after the failed completion a second execution would have
started, and certainly after the further signal and completion below.  In
the code the rejected query promise errors the RxJS chain (no
`catchError`): the executions-started count stays at 1 forever. -/
theorem observable_failure_counterexample :
    (pipeRun (pipeAttach (0 : Nat)) [.signal 1, .reject]).starts ≠ 2 ∧
    (pipeRun (pipeAttach (0 : Nat))
        [.signal 1, .reject, .signal 2, .resolve 3]).starts = 1 ∧
    (pipeRun (pipeAttach (0 : Nat))
        [.signal 1, .reject, .signal 2, .resolve 3]).phase = .errored := by
  decide

/-- C7 amended: if a pipeline's execution fails, the failure is delivered
to every attached observer (an RxJS error notification in place of a
result), but the error is terminal: the pipeline transitions to `errored`,
a pending rerun never fires, and no subsequent staleness signal or
completion ever starts another execution or delivers anything further. -/
theorem observable_failure_terminal {D : Type} (s : PipeState D) (k : Nat)
    (d0 : D) (tl : List (Nat × D)) (evs : List (PEvent D))
    (hph : s.phase = .running ∨ s.phase = .runningPending)
    (hin : s.inflight = (k, d0) :: tl) :
    pipeRun s (PEvent.reject :: evs) =
      { phase := .errored, inflight := [], starts := s.starts,
        emitted := s.emitted ++ [(k, .failure)] } := by
  have hstep : pipeStep s .reject =
      { phase := .errored, inflight := [], starts := s.starts,
        emitted := s.emitted ++ [(k, .failure)] } := by
    rcases hph with hph | hph <;> simp [pipeStep, hph, hin]
  show pipeRun (pipeStep s .reject) evs = _
  rw [hstep]
  exact pipeRun_errored _ evs rfl rfl

/-- C7 amended witness: the pipeline from the counterexample trace — the
failure is emitted once, and the pending rerun plus all later events leave
the machine in the terminal `errored` state with one execution ever
started. -/
theorem observable_failure_terminal_witness :
    pipeRun (pipeAttach (0 : Nat))
        (PEvent.reject :: [.signal 2, .resolve 3, .reject]) =
      { phase := .errored, inflight := [], starts := 1,
        emitted := [(0, .failure)] } :=
  observable_failure_terminal (pipeAttach 0) 0 0 [] [.signal 2, .resolve 3, .reject]
    (Or.inl rfl) rfl

theorem exists_of_applyBucket_error {t : RecordTable} {b : Bucket} {db : Db}
    {e : DbError} (h : applyBucket t b db = .error e) :
    ∃ i' r', (i', r') ∈ b ∧ upsertRecordSql t r' = .error e := by
  induction b generalizing db with
  | nil => exact absurd h (by simp [applyBucket])
  | cons q rest ih =>
    obtain ⟨i, r⟩ := q
    rw [applyBucket] at h
    cases hu : upsertRecordSql t r with
    | error e' =>
      rw [hu] at h
      obtain rfl : e' = e := by simpa using h
      exact ⟨i, r, List.mem_cons_self _ _, hu⟩
    | ok st =>
      rw [hu] at h
      obtain ⟨i', r', hmem, hr⟩ := ih h
      exact ⟨i', r', List.mem_cons_of_mem _ hmem, hr⟩

theorem applyBucket_error_of_mem {t : RecordTable} {b : Bucket} {i : String}
    {r : Rec} {e' : DbError} (hb : (i, r) ∈ b)
    (hf : upsertRecordSql t r = .error e') (db : Db) :
    ∃ e, applyBucket t b db = .error e := by
  induction b generalizing db with
  | nil => exact absurd hb (by simp)
  | cons q rest ih =>
    obtain ⟨j, rq⟩ := q
    rw [applyBucket]
    cases hu : upsertRecordSql t rq with
    | error e0 => exact ⟨e0, rfl⟩
    | ok st =>
      rcases List.mem_cons.mp hb with heq | hmem
      · obtain ⟨rfl, rfl⟩ := Prod.mk.inj heq
        rw [hu] at hf
        exact absurd hf (by simp)
      · exact ih hmem (execStmt db st)

theorem applyRecordMap_error_of_mem {m : RecordMap} {t : RecordTable}
    {b : Bucket} {i : String} {r : Rec} {e' : DbError}
    (hm : (t, b) ∈ m) (hb : (i, r) ∈ b)
    (hf : upsertRecordSql t r = .error e') (db : Db) :
    ∃ e, applyRecordMap m db = .error e ∧
      ∃ t' r', (∃ b' i', (t', b') ∈ m ∧ (i', r') ∈ b') ∧
        upsertRecordSql t' r' = .error e := by
  induction m generalizing db with
  | nil => exact absurd hm (by simp)
  | cons p rest ih =>
    obtain ⟨t0, b0⟩ := p
    rw [applyRecordMap]
    cases hab : applyBucket t0 b0 db with
    | error e0 =>
      obtain ⟨i', r', hmem, hr⟩ := exists_of_applyBucket_error hab
      exact ⟨e0, rfl, t0, r', ⟨b0, i', List.mem_cons_self _ _, hmem⟩, hr⟩
    | ok db' =>
      rcases List.mem_cons.mp hm with heq | hmem
      · obtain ⟨rfl, rfl⟩ : t = t0 ∧ b = b0 := by
          constructor <;> [exact congrArg Prod.fst heq; exact congrArg Prod.snd heq]
        obtain ⟨e0, habe⟩ := applyBucket_error_of_mem hb hf db
        rw [habe] at hab
        exact absurd hab (by simp)
      · obtain ⟨e0, hmap, t', r', ⟨b', i', hm', hb'⟩, hr'⟩ := ih hmem db'
        exact ⟨e0, hmap, t', r', ⟨b', i', List.mem_cons_of_mem _ hm', hb'⟩, hr'⟩

/-- C3: `writeRecordMap` is atomic — if any individual upsert in the batch
fails, the transaction rolls back (the database state after the call is
the state before it), `emitTableChanges` is never reached so no
`DatabaseChange` is delivered to any subscriber, and the error surfaced to
the caller is exactly the failure of one of the batch's upserts. -/
theorem writeRecordMap_atomic_on_failure (db : Db) (m : RecordMap)
    (t : RecordTable) (b : Bucket) (i : String) (r : Rec) (e' : DbError)
    (hm : (t, b) ∈ m) (hb : (i, r) ∈ b)
    (hf : upsertRecordSql t r = .error e') :
    ∃ e, writeRecordMap db m = { db := db, published := [], error := some e } ∧
      ∃ t' r', (∃ b' i', (t', b') ∈ m ∧ (i', r') ∈ b') ∧
        upsertRecordSql t' r' = .error e := by
  obtain ⟨e, he, hw⟩ := applyRecordMap_error_of_mem hm hb hf db
  exact ⟨e, by rw [writeRecordMap, he], hw⟩

/-- C3 witness: a batch holding one valid `counter` upsert and one record
destined for `thread` (which has no registered rule, so its upsert fails)
leaves the store unchanged, publishes nothing, and surfaces the failure. -/
theorem writeRecordMap_atomic_on_failure_witness :
    ∃ e, writeRecordMap { counter := [("1", 5)] }
        [(.counter, [("1", { id := "1", value := 6 })]),
         (.thread, [("t1", { id := "t1", value := 0 })])] =
      { db := { counter := [("1", 5)] }, published := [], error := some e } ∧
      ∃ t' r', (∃ b' i',
          (t', b') ∈ [((.counter : RecordTable), [("1", ({ id := "1", value := 6 } : Rec))]),
            (.thread, [("t1", { id := "t1", value := 0 })])] ∧ (i', r') ∈ b') ∧
        upsertRecordSql t' r' = .error e :=
  writeRecordMap_atomic_on_failure { counter := [("1", 5)] } _
    .thread [("t1", { id := "t1", value := 0 })] "t1" { id := "t1", value := 0 }
    (.unknownTable .thread) (by simp) (by simp) rfl

/-! Section: Row-level semantics lemmas for the upsert statement -/

theorem keysOf_cons (j : String) (w : Int) (rest : Rows) :
    keysOf ((j, w) :: rest) = j :: keysOf rest := rfl

theorem keysOf_upsertRow (rows : Rows) (i : String) (v : Int) :
    keysOf (upsertRow rows i v) =
      if i ∈ keysOf rows then keysOf rows else keysOf rows ++ [i] := by
  induction rows with
  | nil => simp [upsertRow, keysOf]
  | cons q rest ih =>
    obtain ⟨j, w⟩ := q
    by_cases hji : j = i
    · subst hji
      rw [upsertRow, if_pos rfl, keysOf_cons, keysOf_cons,
        if_pos (List.mem_cons_self _ _)]
    · have hne : ¬ i = j := fun h => hji h.symm
      rw [upsertRow, if_neg hji, keysOf_cons, keysOf_cons, ih]
      by_cases hm : i ∈ keysOf rest
      · rw [if_pos hm, if_pos (List.mem_cons.mpr (Or.inr hm))]
      · rw [if_neg hm, if_neg (by simp [List.mem_cons, hne, hm])]
        simp

theorem lookupRow_upsertRow (rows : Rows) (i : String) (v : Int) (j : String) :
    lookupRow (upsertRow rows i v) j =
      if j = i then some v else lookupRow rows j := by
  induction rows with
  | nil =>
    by_cases hji : j = i
    · subst hji
      simp [upsertRow, lookupRow]
    · have hij : ¬ i = j := fun h => hji h.symm
      simp [upsertRow, lookupRow, hji, hij]
  | cons q rest ih =>
    obtain ⟨a, w⟩ := q
    by_cases hai : a = i
    · subst hai
      rw [upsertRow, if_pos rfl]
      by_cases hja : j = a
      · subst hja
        simp [lookupRow]
      · have h1 : ¬ a = j := fun h => hja h.symm
        rw [lookupRow, if_neg h1, if_neg hja, lookupRow, if_neg h1]
    · rw [upsertRow, if_neg hai]
      by_cases haj : a = j
      · subst haj
        rw [lookupRow, if_pos rfl, if_neg (fun h => hai h), lookupRow, if_pos rfl]
      · have h2 : ¬ j = a := fun h => haj h.symm
        rw [lookupRow, if_neg haj, ih]
        by_cases hji : j = i
        · rw [if_pos hji, if_pos hji]
        · rw [if_neg hji, if_neg hji, lookupRow, if_neg haj]

theorem lookupRow_eq_none {rows : Rows} {i : String} (h : i ∉ keysOf rows) :
    lookupRow rows i = none := by
  induction rows with
  | nil => rfl
  | cons q rest ih =>
    obtain ⟨j, w⟩ := q
    rw [keysOf_cons, List.mem_cons, not_or] at h
    rw [lookupRow, if_neg (fun hji => h.1 hji.symm)]
    exact ih h.2

theorem rows_ext {X Y : Rows} (hX : (keysOf X).Nodup)
    (hk : keysOf X = keysOf Y) (hl : ∀ j, lookupRow X j = lookupRow Y j) :
    X = Y := by
  induction X generalizing Y with
  | nil =>
    cases Y with
    | nil => rfl
    | cons q rest => exact absurd hk (by simp [keysOf])
  | cons q rest ih =>
    obtain ⟨i, v⟩ := q
    cases Y with
    | nil => exact absurd hk (by simp [keysOf])
    | cons q' rest' =>
      obtain ⟨i', v'⟩ := q'
      rw [keysOf_cons, keysOf_cons] at hk
      injection hk with hi hk'
      subst hi
      rw [keysOf_cons] at hX
      obtain ⟨hnotin, hXnd⟩ := List.nodup_cons.mp hX
      have hv : v = v' := by
        have h0 := hl i
        rw [lookupRow, if_pos rfl, lookupRow, if_pos rfl] at h0
        exact Option.some.inj h0
      subst hv
      have hnotin' : i ∉ keysOf rest' := hk' ▸ hnotin
      have htail : rest = rest' := by
        refine ih hXnd hk' fun j => ?_
        by_cases hij : i = j
        · subst hij
          rw [lookupRow_eq_none hnotin, lookupRow_eq_none hnotin']
        · have h0 := hl j
          rwa [lookupRow, if_neg hij, lookupRow, if_neg hij] at h0
      rw [htail]

/-! Section: Applying a whole batch of upserts -/

theorem applyOps_append (rows : Rows) (xs ys : List (String × Int)) :
    applyOps rows (xs ++ ys) = applyOps (applyOps rows xs) ys :=
  List.foldl_append _ _ _ _

theorem keysOf_applyOps (ops : List (String × Int)) (rows : Rows) :
    keysOf (applyOps rows ops) = idsAfter (keysOf rows) ops := by
  induction ops generalizing rows with
  | nil => rfl
  | cons op rest ih =>
    show keysOf (applyOps (upsertRow rows op.1 op.2) rest) = _
    rw [ih, idsAfter, keysOf_upsertRow]

theorem lookupRow_applyOps (ops : List (String × Int)) (rows : Rows)
    (j : String) :
    lookupRow (applyOps rows ops) j =
      match lastVal ops j with
      | some v => some v
      | none => lookupRow rows j := by
  induction ops generalizing rows with
  | nil => simp [applyOps, lastVal]
  | cons op rest ih =>
    show lookupRow (applyOps (upsertRow rows op.1 op.2) rest) j = _
    rw [ih, lastVal]
    cases lastVal rest j with
    | some v => rfl
    | none =>
      rw [lookupRow_upsertRow]
      by_cases h : op.1 = j
      · rw [if_pos h.symm, if_pos h]
      · rw [if_neg (fun hj => h hj.symm), if_neg h]

theorem mem_idsAfter_of_mem {a : String} {ks : List String}
    (ops : List (String × Int)) (h : a ∈ ks) : a ∈ idsAfter ks ops := by
  induction ops generalizing ks with
  | nil => exact h
  | cons op rest ih =>
    rw [idsAfter]
    refine ih ?_
    by_cases hm : op.1 ∈ ks <;> simp [hm, h]

theorem fst_mem_idsAfter {op : String × Int} {ops : List (String × Int)}
    (ks : List String) (h : op ∈ ops) : op.1 ∈ idsAfter ks ops := by
  induction ops generalizing ks with
  | nil => exact absurd h (by simp)
  | cons op0 rest ih =>
    rw [idsAfter]
    rcases List.mem_cons.mp h with rfl | hmem
    · refine mem_idsAfter_of_mem rest ?_
      by_cases hm : op.1 ∈ ks <;> simp [hm]
    · exact ih _ hmem

theorem idsAfter_of_subset {ks : List String} {ops : List (String × Int)}
    (h : ∀ op ∈ ops, op.1 ∈ ks) : idsAfter ks ops = ks := by
  induction ops with
  | nil => rfl
  | cons op rest ih =>
    rw [idsAfter, if_pos (h op (List.mem_cons_self _ _))]
    exact ih fun q hq => h q (List.mem_cons_of_mem _ hq)

theorem nodup_idsAfter {ks : List String} (ops : List (String × Int))
    (h : ks.Nodup) : (idsAfter ks ops).Nodup := by
  induction ops generalizing ks with
  | nil => exact h
  | cons op rest ih =>
    rw [idsAfter]
    by_cases hm : op.1 ∈ ks
    · rw [if_pos hm]
      exact ih h
    · refine ih ?_
      rw [if_neg hm, List.nodup_append]
      refine ⟨h, List.nodup_singleton _, fun a ha ha1 => ?_⟩
      rw [List.mem_singleton] at ha1
      exact hm (ha1 ▸ ha)

/-- Applying the same operation list twice is the same as applying it
once: the second pass only rewrites rows to the values they already
hold. -/
theorem applyOps_idem (rows : Rows) (ops : List (String × Int))
    (hnd : (keysOf rows).Nodup) :
    applyOps (applyOps rows ops) ops = applyOps rows ops := by
  have hkeys : keysOf (applyOps (applyOps rows ops) ops) =
      keysOf (applyOps rows ops) := by
    rw [keysOf_applyOps]
    refine idsAfter_of_subset fun op hop => ?_
    rw [keysOf_applyOps]
    exact fst_mem_idsAfter _ hop
  refine rows_ext ?_ hkeys fun j => ?_
  · rw [keysOf_applyOps, keysOf_applyOps]
    exact nodup_idsAfter _ (nodup_idsAfter _ hnd)
  · rw [lookupRow_applyOps, lookupRow_applyOps]
    cases h : lastVal ops j <;> simp [h]

theorem applyBucket_counter (b : Bucket) (db : Db) :
    applyBucket .counter b db = .ok { counter := applyOps db.counter (bucketOps b) } := by
  induction b generalizing db with
  | nil => rfl
  | cons q rest ih =>
    obtain ⟨i, r⟩ := q
    rw [applyBucket]
    show applyBucket .counter rest (execStmt db (.upsertCounter r.id r.value)) = _
    rw [ih]
    rfl

theorem applyRecordMap_registered (m : RecordMap) (db : Db)
    (hreg : ∀ p ∈ m, hasUpsertRule p.1 = true) :
    applyRecordMap m db = .ok { counter := applyOps db.counter (mapOps m) } := by
  induction m generalizing db with
  | nil => rfl
  | cons p rest ih =>
    obtain ⟨t, b⟩ := p
    have ht : t = .counter := by
      have h0 := hreg (t, b) (List.mem_cons_self _ _)
      cases t
      · rfl
      all_goals simp [hasUpsertRule] at h0
    subst ht
    rw [applyRecordMap, applyBucket_counter]
    show applyRecordMap rest { counter := applyOps db.counter (bucketOps b) } = _
    rw [ih _ fun q hq => hreg q (List.mem_cons_of_mem _ hq)]
    show _ = Except.ok { counter := applyOps db.counter (bucketOps b ++ mapOps rest) }
    rw [applyOps_append]

/-- C6: for a `RecordMap` whose tables all have a registered upsert rule
(with rows whose ids are unique, as the `counter` primary key guarantees),
writing the map twice leaves the database in the same state as writing it
once, both calls succeed, and each call publishes exactly one
`DatabaseChange` with the identical `changes` payload (the map itself). -/
theorem writeRecordMap_idempotent (db : Db) (m : RecordMap)
    (hreg : ∀ p ∈ m, hasUpsertRule p.1 = true)
    (hnd : (keysOf db.counter).Nodup) :
    (writeRecordMap (writeRecordMap db m).db m).db = (writeRecordMap db m).db ∧
    (writeRecordMap db m).published =
      [{ tableNames := m.map (fun p => p.1.name), changes := m }] ∧
    (writeRecordMap (writeRecordMap db m).db m).published =
      [{ tableNames := m.map (fun p => p.1.name), changes := m }] ∧
    (writeRecordMap db m).error = none ∧
    (writeRecordMap (writeRecordMap db m).db m).error = none := by
  have h1 : writeRecordMap db m =
      { db := { counter := applyOps db.counter (mapOps m) }
        published := [{ tableNames := m.map (fun p => p.1.name), changes := m }]
        error := none } := by
    rw [writeRecordMap, applyRecordMap_registered m db hreg]
  have h2 : writeRecordMap { counter := applyOps db.counter (mapOps m) } m =
      { db := { counter := applyOps db.counter (mapOps m) }
        published := [{ tableNames := m.map (fun p => p.1.name), changes := m }]
        error := none } := by
    rw [writeRecordMap, applyRecordMap_registered m _ hreg]
    show ({ db := { counter := applyOps (applyOps db.counter (mapOps m)) (mapOps m) }
            published := [{ tableNames := m.map (fun p => p.1.name), changes := m }]
            error := none } : WriteResult) = _
    rw [applyOps_idem db.counter (mapOps m) hnd]
  rw [h1]
  exact ⟨by rw [h2], rfl, by rw [h2], rfl, by rw [h2]⟩

/-- C6 witness: writing `\x7b counter: \x7b "1": \x7b id: "1", value: 2 \x7d \x7d \x7d` twice
into an empty store equals writing it once, and both calls publish the
same single event. -/
theorem writeRecordMap_idempotent_witness :
    (writeRecordMap (writeRecordMap { counter := [] }
        [(.counter, [("1", { id := "1", value := 2 })])]).db
        [(.counter, [("1", { id := "1", value := 2 })])]).db =
      (writeRecordMap { counter := [] }
        [(.counter, [("1", { id := "1", value := 2 })])]).db ∧
    (writeRecordMap { counter := [] }
        [(.counter, [("1", { id := "1", value := 2 })])]).published =
      [{ tableNames := [(.counter : RecordTable)].map RecordTable.name,
         changes := [(.counter, [("1", { id := "1", value := 2 })])] }] ∧
    (writeRecordMap (writeRecordMap { counter := [] }
        [(.counter, [("1", { id := "1", value := 2 })])]).db
        [(.counter, [("1", { id := "1", value := 2 })])]).published =
      [{ tableNames := [(.counter : RecordTable)].map RecordTable.name,
         changes := [(.counter, [("1", { id := "1", value := 2 })])] }] ∧
    (writeRecordMap { counter := [] }
        [(.counter, [("1", { id := "1", value := 2 })])]).error = none ∧
    (writeRecordMap (writeRecordMap { counter := [] }
        [(.counter, [("1", { id := "1", value := 2 })])]).db
        [(.counter, [("1", { id := "1", value := 2 })])]).error = none := by
  have h := writeRecordMap_idempotent { counter := [] }
    [(.counter, [("1", { id := "1", value := 2 })])] (by decide) (by decide)
  exact h

/-- C9: `upsertRecordSql` fails with `UnknownTable` for every table with
no registered rule, and for a registered table returns the
insert-with-conflict-resolution statement whose semantics on a
primary-key collision overwrite the non-key `value` column with the new
record's value, leaving the set of row ids unchanged. -/
theorem upsert_registry_contract (t : RecordTable) (r : Rec) :
    (hasUpsertRule t = false → upsertRecordSql t r = .error (.unknownTable t)) ∧
    (hasUpsertRule t = true →
      upsertRecordSql t r = .ok (.upsertCounter r.id r.value) ∧
      ∀ (rows : Rows) (v0 : Int), lookupRow rows r.id = some v0 →
        keysOf (upsertRow rows r.id r.value) = keysOf rows ∧
        lookupRow (upsertRow rows r.id r.value) r.id = some r.value) := by
  constructor
  · intro h
    cases t with
    | counter => exact absurd h (by simp [hasUpsertRule])
    | thread => rfl
    | thread_message => rfl
    | message => rfl
  · intro h
    have ht : t = .counter := by
      cases t
      · rfl
      all_goals simp [hasUpsertRule] at h
    subst ht
    refine ⟨rfl, fun rows v0 hlook => ⟨?_, ?_⟩⟩
    · rw [keysOf_upsertRow, if_pos]
      by_contra hmem
      rw [lookupRow_eq_none hmem] at hlook
      exact Option.noConfusion hlook
    · rw [lookupRow_upsertRow, if_pos rfl]

/-- C9 witness: `thread` has no rule and fails with `UnknownTable`;
`counter` has a rule, and upserting `(id "1", value 9)` over an existing
row `("1", 5)` overwrites the value in place. -/
theorem upsert_registry_contract_witness :
    upsertRecordSql .thread { id := "t", value := 0 } =
      .error (.unknownTable .thread) ∧
    upsertRecordSql .counter { id := "1", value := 9 } =
      .ok (.upsertCounter "1" 9) ∧
    keysOf (upsertRow [("1", 5)] "1" 9) = keysOf [("1", 5)] ∧
    lookupRow (upsertRow [("1", 5)] "1" 9) "1" = some 9 := by
  refine ⟨(upsert_registry_contract .thread { id := "t", value := 0 }).1 rfl, ?_⟩
  have h := (upsert_registry_contract .counter { id := "1", value := 9 }).2 rfl
  exact ⟨h.1, (h.2 [("1", 5)] 5 (by decide)).1, (h.2 [("1", 5)] 5 (by decide)).2⟩

/-- C8: when a pipeline's observer count goes from one to zero, the
teardown runs: the pipeline's callback is no longer in the bus's
subscriber set, the shared stream is discarded, and a `DatabaseChange`
published afterwards invokes no callback of that pipeline and changes
nothing — no execution is triggered. -/
theorem pipeline_teardown_unsubscribes {D : Type} (p : SharedPipeline D)
    (d : D) (hnd : p.subs.Nodup) (hobs : p.observers = 1) :
    p.cb ∉ (detachObserver p).subs ∧
    (detachObserver p).pipe = none ∧
    publishToPipeline (detachObserver p) d = detachObserver p := by
  have hdet : detachObserver p =
      { p with observers := 0, subs := busUnsubscribe p.subs p.cb, pipe := none } := by
    rw [detachObserver, if_pos hobs]
  have hmem : p.cb ∉ busUnsubscribe p.subs p.cb := by
    intro hmemer
    exact ((List.Nodup.mem_erase_iff hnd).mp hmemer).1 rfl
  refine ⟨by rw [hdet]; exact hmem, by rw [hdet], ?_⟩
  rw [hdet, publishToPipeline, if_neg hmem]

/-- C8 witness: a pipeline with one observer and callback id 7 on a bus
`\x7b 7 \x7d`: after detaching, the bus no longer holds 7 and a later publish
is a no-op for the pipeline. -/
theorem pipeline_teardown_unsubscribes_witness :
    (7 : Nat) ∉ (detachObserver { subs := [7], cb := 7, observers := 1, pipe := some (pipeAttach (0 : Nat)) }).subs ∧
    (detachObserver { subs := [7], cb := 7, observers := 1, pipe := some (pipeAttach (0 : Nat)) }).pipe = none ∧
    publishToPipeline (detachObserver { subs := [7], cb := 7, observers := 1, pipe := some (pipeAttach (0 : Nat)) }) 3 =
      detachObserver { subs := [7], cb := 7, observers := 1, pipe := some (pipeAttach (0 : Nat)) } :=
  pipeline_teardown_unsubscribes
    { subs := [7], cb := 7, observers := 1, pipe := some (pipeAttach 0) } 3
    (by decide) rfl

/-- C10: the per-record bus callback installed by `observeRecord` and
`liveRecord` signals the pipeline exactly when the event's `changes` map
holds the observed table and that table's bucket holds the observed record
id; otherwise — table absent, or same table but only other ids — it
returns without invoking `onChange`, and the pipeline is untouched. -/
theorem record_filter_id_granularity {D : Type} (t : RecordTable)
    (id : String) (ev : DatabaseChange) (d : D) (p : PipeState D) :
    ((∃ b, lookupTable ev.changes t = some b ∧ bucketHasId b id = true) →
      recordOnRowChange t id ev d p = pipeStep p (.signal d)) ∧
    (¬ (∃ b, lookupTable ev.changes t = some b ∧ bucketHasId b id = true) →
      recordOnRowChange t id ev d p = p) := by
  constructor
  · rintro ⟨b, hb, hid⟩
    rw [recordOnRowChange, hb]
    show (if bucketHasId b id = true then pipeStep p (.signal d) else p) = _
    rw [if_pos hid]
  · intro hno
    rw [recordOnRowChange]
    cases hb : lookupTable ev.changes t with
    | none => rfl
    | some b =>
      show (if bucketHasId b id = true then pipeStep p (.signal d) else p) = p
      rw [if_neg]
      intro hid
      exact hno ⟨b, hb, hid⟩

/-- C10 witness: an event whose `counter` bucket holds only id "2" does
not signal an observer of `("counter", "1")`, while an event holding id
"1" does. -/
theorem record_filter_id_granularity_witness :
    recordOnRowChange .counter "1"
      { tableNames := ["counter"],
        changes := [(.counter, [("2", { id := "2", value := 4 })])] }
      (5 : Nat) (pipeAttach 0) = pipeAttach 0 ∧
    recordOnRowChange .counter "1"
      { tableNames := ["counter"],
        changes := [(.counter, [("1", { id := "1", value := 4 })])] }
      (5 : Nat) (pipeAttach 0) = pipeStep (pipeAttach 0) (.signal 5) := by
  constructor
  · refine (record_filter_id_granularity .counter "1" _ 5 (pipeAttach 0)).2 ?_
    rintro ⟨b, hb, hid⟩
    rw [show lookupTable
        [((.counter : RecordTable), [("2", ({ id := "2", value := 4 } : Rec))])]
        .counter = some [("2", { id := "2", value := 4 })] from rfl] at hb
    obtain rfl := Option.some.inj hb
    simp [bucketHasId] at hid
  · exact (record_filter_id_granularity .counter "1" _ 5 (pipeAttach 0)).1
      ⟨[("1", { id := "1", value := 4 })], rfl, by decide⟩

end ObservableSqlite
